import Mathlib

/-!
Verification development for the hephaestus synchronization engine.

The definitions below are a shallow embedding of the Go sources:

* `internal/client/cookie.go` — in-memory cookie jar,
* `internal/auth/login.go` — `RetryLogin`,
* `internal/parser/task.go` — task-page field extraction,
* `internal/repository/task.go` — executor reconciliation,
* the task service (`catchUpToNow` / `processDate`),
* the employee service (`ProcessEmployee`, fingerprint short-circuit).

Machine integers are modelled as `Int`/`Nat` (the values involved — task
identifiers, dates — are far below 64-bit bounds, so overflow is not
modelled).  Fallible Go functions return `Option`/`Except`; `error` values
are modelled by the `GoError` tree which records `fmt.Errorf("...: %w", e)`
wrapping, so that `errors.Is`-style cause recovery is expressible.
External effects (HTTP, SQL) are modelled by oracle functions supplied as
arguments, and the persistence calls a cycle performs are returned as an
explicit event trace.
-/

namespace Hephaestus

/-- Model of a Go `error` value: either a leaf message (`errors.New`,
which attaches no cause) or a formatted message wrapping a cause
(`fmt.Errorf` with `%w`). -/
inductive GoError where
  | msg (s : String)
  | wrap (s : String) (cause : GoError)
deriving Repr, DecidableEq

/-- Model of `errors.Is`: the target is the error itself or appears in its
unwrap chain. -/
def errorIs : GoError → GoError → Bool
  | GoError.msg s, t => GoError.msg s = t
  | GoError.wrap s c, t => GoError.wrap s c = t || errorIs c t

/-! ### Models of the `strings` helpers used by the sources

Go's `strings.TrimSpace`, `strings.Split`, `strings.Contains` and
`strings.ReplaceAll` are re-implemented over `List Char` so that every
definition evaluates inside the kernel.  The split loop carries a fuel
argument equal to the input length plus one; each step consumes at least
one character, so the fuel never runs out and the zero-fuel branch is
unreachable. -/

/-- Whitespace predicate used by the `strings.TrimSpace` model (ASCII
whitespace; the scraped cells never contain the exotic Unicode spaces
`unicode.IsSpace` additionally accepts). -/
def isSpaceChar (c : Char) : Bool :=
  c = ' ' || c = '\t' || c = '\n' || c = '\r'

/-- Drops leading whitespace characters. -/
def dropLeadingSpaces : List Char → List Char
  | [] => []
  | c :: cs => if isSpaceChar c then dropLeadingSpaces cs else c :: cs

/-- Model of `strings.TrimSpace`. -/
def trimR (s : String) : String :=
  ⟨(dropLeadingSpaces (dropLeadingSpaces s.data.reverse).reverse)⟩

/-- Worker for the `strings.Split` model: scans the input, emitting the
accumulated token whenever the separator occurs at the current position. -/
def splitGoFuel (sep : List Char) : Nat → List Char → List Char → List (List Char)
  | 0, acc, rest => [acc.reverse ++ rest]
  | _ + 1, acc, [] => [acc.reverse]
  | fuel + 1, acc, c :: cs =>
    if sep.isPrefixOf (c :: cs) then
      acc.reverse :: splitGoFuel sep fuel [] ((c :: cs).drop sep.length)
    else splitGoFuel sep fuel (c :: acc) cs

/-- Model of `strings.Split s sep` for the non-empty separators used in the
sources (for an empty separator the sources never call it; the model then
returns the input whole). -/
def splitR (s sep : String) : List String :=
  match sep.data with
  | [] => [s]
  | s0 :: srest => (splitGoFuel (s0 :: srest) (s.data.length + 1) [] s.data).map (fun cs => ⟨cs⟩)

/-- Worker for the `strings.Contains` model. -/
def containsSubAux (sub : List Char) : List Char → Bool
  | [] => sub.isEmpty
  | c :: cs => sub.isPrefixOf (c :: cs) || containsSubAux sub cs

/-- Model of `strings.Contains`. -/
def containsSub (s sub : String) : Bool :=
  containsSubAux sub.data s.data

/-- Model of `strings.ReplaceAll s old new` (split on `old`, re-join with
`new`); the sources only use it to delete spaces and hyphens. -/
def replaceAllR (s old new : String) : String :=
  String.join ((splitR s old).intersperse new)

/-! ### Model of `strconv.Atoi` -/

/-- Numeric value of a digit string (most significant first). -/
def digitsToNat (cs : List Char) : Nat :=
  cs.foldl (fun acc c => acc * 10 + (c.toNat - 48)) 0

/-- Model of `strconv.Atoi`: an optional sign followed by at least one
decimal digit and nothing else.  (The 64-bit range check of the Go
implementation is elided; scraped task identifiers are small.) -/
def atoiR (s : String) : Option Int :=
  match s.data with
  | [] => none
  | c :: cs =>
    let signDigits : Bool × List Char :=
      if c = '-' then (true, cs)
      else if c = '+' then (false, cs)
      else (false, c :: cs)
    match signDigits with
    | (neg, ds) =>
      if ds.isEmpty then none
      else if ds.all Char.isDigit then
        some (if neg then -(Int.ofNat (digitsToNat ds)) else Int.ofNat (digitsToNat ds))
      else none

/-! ### Model of `time.Parse("02.01.2006", s)`

Only the calendar date matters to the parser; a parsed value is a
year/month/day triple.  Go's zero `time.Time` is January 1 of year 1. -/

/-- Calendar date (the value `time.Parse` produces for layout
`02.01.2006`). -/
structure Date where
  year : Nat
  month : Nat
  day : Nat
deriving Repr, DecidableEq

/-- Model of the zero `time.Time` (0001-01-01). -/
def zeroTime : Date := ⟨1, 1, 1⟩

/-- Gregorian leap-year predicate, as in Go's `time` package. -/
def isLeapYear (y : Nat) : Bool :=
  (y % 4 = 0 && y % 100 ≠ 0) || y % 400 = 0

/-- Number of days in a month, as validated by Go's `time.Parse`. -/
def daysInMonth (y m : Nat) : Nat :=
  if m = 2 then (if isLeapYear y then 29 else 28)
  else if m = 4 || m = 6 || m = 9 || m = 11 then 30
  else 31

/-- Numeric value of a single digit character. -/
def digitVal (c : Char) : Nat := c.toNat - 48

/-- Model of `time.Parse` with the strict zero-padded layout `02.01.2006`:
exactly two day digits, a dot, two month digits, a dot and four year
digits, with the month in 1..12 and the day within the month; on any
failure Go returns the zero `time.Time` together with an error, modelled
here by `none`. -/
def parseDDMMYYYY (s : String) : Option Date :=
  match s.data with
  | [d1, d2, dot1, m1, m2, dot2, y1, y2, y3, y4] =>
    if dot1 = '.' && dot2 = '.' && [d1, d2, m1, m2, y1, y2, y3, y4].all Char.isDigit then
      let day := digitVal d1 * 10 + digitVal d2
      let month := digitVal m1 * 10 + digitVal m2
      let year := digitVal y1 * 1000 + digitVal y2 * 100 + digitVal y3 * 10 + digitVal y4
      if 1 ≤ month && month ≤ 12 && 1 ≤ day && day ≤ daysInMonth year month then
        some ⟨year, month, day⟩
      else none
    else none
  | _ => none

/-! ### Field extractor (`internal/parser/task.go`)

The goquery/DOM layer is outside the embedding: an HTML table cell is
modelled by the text values goquery would deliver for it.  For the
customer cell both access paths of `ParseCustomerInfo` are needed — the
concatenated text of its anchor elements (`doc.Find("a").Text()`) and the
text of the whole cell (`doc.Text()`). -/

/-- Model of a customer cell as seen by `ParseCustomerInfo`: the text of
each hyperlink (anchor element) in document order, and the text content of
the entire cell. -/
structure Cell where
  linkTexts : List String
  text : String
deriving Repr, DecidableEq

/-- Model of the fall-through branch of `ParseCustomerInfo`: the trimmed
cell text becomes the customer name with the sentinel login, or both
results are empty. -/
def customerTextFallback (cell : Cell) : String × String :=
  let customerName := trimR cell.text
  if customerName ≠ "" then (customerName, "n/a") else ("", "")

/-- Model of `ParseCustomerInfo` (`internal/parser/task.go`): if the cell
has anchor elements and their trimmed text splits on a literal hyphen into
exactly two parts, the trimmed parts are returned; otherwise the function
falls through to the cell-text branch. -/
def ParseCustomerInfo (cell : Cell) : String × String :=
  if cell.linkTexts.length ≠ 0 then
    let customerData := trimR (String.join cell.linkTexts)
    let parts := splitR customerData "-"
    if parts.length = 2 then
      (trimR (parts.headD ""), trimR (parts.getD 1 ""))
    else customerTextFallback cell
  else customerTextFallback cell

/-- Model of `ParseLinks` (`internal/parser/task.go`): the raw cell markup
is split on `<br/>`; each fragment is trimmed, truncated at an italic
marker when present, trimmed again and kept when non-empty. -/
def ParseLinks (rawHTML : String) : List String :=
  (splitR rawHTML "<br/>").foldl
    (fun acc part =>
      let text := trimR part
      let text := if containsSub text "<i>" then (splitR text "<i>").headD "" else text
      if text ≠ "" then acc ++ [trimR text] else acc)
    []

/-- Model of `models.Task`. -/
structure Task where
  id : Int
  taskType : String
  createdAt : Date
  closedAt : Date
  description : String
  address : String
  customerName : String
  customerLogin : String
  comments : List String
  executors : List String
deriving Repr, DecidableEq

/-- Model of one `tr[tag^="row_"]` table row as seen through the column
configuration: the raw text each selector of the active `parserConfig`
yields.  `descriptionValidUtf8` models `utf8.ValidString` on the extracted
description (a Lean `String` is always valid UTF-8, so validity is carried
as a flag). -/
structure RawRow where
  idText : String
  createdText : String
  closedText : String
  addressText : String
  typeText : String
  descriptionText : String
  descriptionValidUtf8 : Bool
  customerCell : Cell
  executorsHTML : String
  commentsHTML : String
deriving Repr, DecidableEq

/-- Row-level parse error recorded by `parseTasksFromBody` (the Go code
collects `fmt.Errorf` values; only their kind and the offending task id
matter here). -/
inductive RowError where
  | idError
  | createdAtError (id : Int)
  | closedAtError (id : Int)
deriving Repr, DecidableEq

/-- Model of `extractInt`: trimmed selector text, empty text is an error,
otherwise `strconv.Atoi`. -/
def extractIntR (raw : String) : Option Int :=
  let text := trimR raw
  if text = "" then none else atoiR text

/-- Model of `extractDate`: trimmed first-contents text, empty text is an
error, otherwise strict `02.01.2006` parsing; on error the Go function
returns the zero `time.Time`, modelled by `none`. -/
def extractDateR (raw : String) : Option Date :=
  let text := trimR raw
  if text = "" then none else parseDDMMYYYY text

/-- Model of the per-row closure of `parseTasksFromBody`: returns the task
extracted from the row (or `none` when the identifier cell fails to parse,
in which case the closure returns early) together with the row errors it
records.  Date-parse failures record an error but leave the zero time in
the task and do not stop the row. -/
def processRow (isCompleted : Bool) (row : RawRow) : Option Task × List RowError :=
  match extractIntR row.idText with
  | none => (none, [RowError.idError])
  | some tid =>
    let createdRes : Date × List RowError :=
      match extractDateR row.createdText with
      | some d => (d, [])
      | none => (zeroTime, [RowError.createdAtError tid])
    let closedRes : Date × List RowError :=
      if isCompleted then
        match extractDateR row.closedText with
        | some d => (d, [])
        | none => (zeroTime, [RowError.closedAtError tid])
      else (zeroTime, [])
    let descriptionTrimmed := trimR row.descriptionText
    let description := if row.descriptionValidUtf8 then descriptionTrimmed else ""
    let customer := ParseCustomerInfo row.customerCell
    (some {
      id := tid
      taskType := trimR row.typeText
      createdAt := createdRes.1
      closedAt := closedRes.1
      description := description
      address := trimR row.addressText
      customerName := customer.1
      customerLogin := customer.2
      comments := ParseLinks row.commentsHTML
      executors := ParseLinks row.executorsHTML
    }, createdRes.2 ++ closedRes.2)

/-- Model of `parseTasksFromBody`: every row of the page is processed in
document order, appending extracted tasks and recorded row errors; the
function's Go-level `error` result is `nil` on this path (row errors are
only logged), modelled by the final `none`. -/
def parseTasksFromBody (isCompleted : Bool) (rows : List RawRow) :
    (List Task × List RowError) × Option GoError :=
  (rows.foldl
    (fun acc row =>
      match processRow isCompleted row with
      | (some t, errs) => (acc.1 ++ [t], acc.2 ++ errs)
      | (none, errs) => (acc.1, acc.2 ++ errs))
    ([], []),
   none)

/-! ### Synchronization engine for tasks (`TaskService.catchUpToNow` /
`TaskService.processDate`)

Go `time.Time` values are modelled at the granularity the engine uses: a
UTC day index plus the seconds within the day.  `time.Date(y, m, d, 0, 0,
0, 0, time.UTC)` applied to a value's own calendar day is truncation to
day granularity, and `AddDate(0, 0, 1)` adds one day while keeping the
time of day. -/

/-- Model of a `time.Time` instant: UTC day index and seconds within the
day. -/
structure GoTime where
  day : Nat
  sec : Nat
deriving Repr, DecidableEq

/-- Model of `time.Date(t.Year(), t.Month(), t.Day(), 0, 0, 0, 0,
time.UTC)`: truncation to UTC day granularity. -/
def truncateToDay (t : GoTime) : GoTime := ⟨t.day, 0⟩

/-- Model of `AddDate(0, 0, n)`: calendar-day addition preserving the time
of day. -/
def addDays (t : GoTime) (n : Nat) : GoTime := ⟨t.day + n, t.sec⟩

/-- Model of `time.Time.After` on instants. -/
def timeAfter (a b : GoTime) : Bool :=
  a.day > b.day || (a.day = b.day && a.sec > b.sec)

/-- Day index of a calendar date (days since 0000-03-01 of the proleptic
Gregorian calendar), used to place concrete dates such as 2024-01-01 into
the `GoTime` model. -/
def daysFromCivil (y m d : Nat) : Nat :=
  let yAdj := if m ≤ 2 then y - 1 else y
  let era := yAdj / 400
  let yoe := yAdj % 400
  let mp := (m + 9) % 12
  let doy := (153 * mp + 2) / 5 + d - 1
  let doe := yoe * 365 + yoe / 4 - yoe / 100 + doy
  era * 146097 + doe

/-- Oracle describing the behaviour of the scraper and the repository
during reconciliation cycles: the parse result for a (normalized) date,
and the outcome of each persistence call (`none` is success). -/
structure SyncEnv where
  parseResult : GoTime → Except GoError (List Task)
  saveTaskResult : GoTime → Task → Option GoError
  saveDateResult : GoTime → Option GoError

/-- Persistence call issued to the repository during a cycle. -/
inductive Event where
  | saveTask (t : Task)
  | saveDate (d : GoTime)
deriving Repr, DecidableEq

/-- Model of the `SaveTaskData` loop of `processDate`: tasks are saved in
order; the first failure aborts the loop with a wrapped error.  Returns
the result and the persistence calls issued. -/
def runSaveTasks (env : SyncEnv) (nd : GoTime) : List Task → Option GoError × List Event
  | [] => (none, [])
  | t :: ts =>
    match env.saveTaskResult nd t with
    | some e => (some (GoError.wrap "failed to save task in repository" e), [Event.saveTask t])
    | none =>
      match runSaveTasks env nd ts with
      | (res, evs) => (res, Event.saveTask t :: evs)

/-- Model of `TaskService.processDate`: normalize the date, scrape it,
save every task, then save the advanced cursor `dateToParse + 1 day`.
Returns the cycle result, the persistence calls issued in order, and the
stored cursor value after the cycle (`store` is the cursor the status
repository currently holds; a successful `SaveProcessedDate` replaces
it). -/
def processDate (env : SyncEnv) (store : GoTime) (dateToParse : GoTime) :
    Option GoError × List Event × GoTime :=
  let normalizedDate := truncateToDay dateToParse
  match env.parseResult normalizedDate with
  | Except.error e => (some (GoError.wrap "failed to parse tasks for date" e), [], store)
  | Except.ok tasks =>
    match runSaveTasks env normalizedDate tasks with
    | (some e, evs) => (some e, evs, store)
    | (none, evs) =>
      let nextDate := addDays dateToParse 1
      match env.saveDateResult nextDate with
      | some e =>
        (some (GoError.wrap "failed to save next processed date" e),
         evs ++ [Event.saveDate nextDate], store)
      | none => (none, evs ++ [Event.saveDate nextDate], nextDate)

/-- On a successful cycle the stored cursor is the processed date plus one
day. -/
theorem processDate_ok_store (env : SyncEnv) (store dateToParse : GoTime)
    (evs : List Event) (st : GoTime)
    (h : processDate env store dateToParse = (none, evs, st)) :
    st = addDays dateToParse 1 := by
  rcases hp : env.parseResult (truncateToDay dateToParse) with e | tasks
  · simp [processDate, hp] at h
  · rcases hs : runSaveTasks env (truncateToDay dateToParse) tasks with ⟨res, evs2⟩
    rcases res with _ | e
    · rcases hd : env.saveDateResult (addDays dateToParse 1) with _ | e
      · simp only [processDate, hp, hs, hd, Prod.mk.injEq] at h
        exact h.2.2.symm
      · simp [processDate, hp, hs, hd] at h
    · simp [processDate, hp, hs] at h

/-- A failed cycle leaves the stored cursor untouched. -/
theorem processDate_err_store (env : SyncEnv) (store dateToParse : GoTime)
    (e : GoError) (evs : List Event) (st : GoTime)
    (h : processDate env store dateToParse = (some e, evs, st)) :
    st = store := by
  rcases hp : env.parseResult (truncateToDay dateToParse) with e2 | tasks
  · simp only [processDate, hp, Prod.mk.injEq] at h
    exact h.2.2.symm
  · rcases hs : runSaveTasks env (truncateToDay dateToParse) tasks with ⟨res, evs2⟩
    rcases res with _ | e2
    · rcases hd : env.saveDateResult (addDays dateToParse 1) with _ | e2
      · simp [processDate, hp, hs, hd] at h
      · simp only [processDate, hp, hs, hd, Prod.mk.injEq] at h
        exact h.2.2.symm
    · simp only [processDate, hp, hs, Prod.mk.injEq] at h
      exact h.2.2.symm

/-- Model of `TaskService.catchUpToNow`: repeatedly read the stored cursor
date (the loop variable `lastDate` of the Go code is exactly the stored
value, so the store is used directly), stop once its day-truncation is
after the day-truncation of `today`, otherwise run `processDate` for it;
any cycle error aborts the loop with a wrapped error.  Returns the overall
result, the dates handed to `processDate` in order, and the final stored
cursor. -/
def catchUpToNow (env : SyncEnv) (today : GoTime) (store : GoTime) :
    Option GoError × List GoTime × GoTime :=
  if timeAfter (truncateToDay store) (truncateToDay today) then (none, [], store)
  else
    match h : processDate env store store with
    | (some e, _, store2) =>
      (some (GoError.wrap "failed to process date during catch-up" e), [store], store2)
    | (none, _, store2) =>
      match catchUpToNow env today store2 with
      | (res, ds, st) => (res, store :: ds, st)
termination_by today.day + 1 - store.day
decreasing_by
  have hst : store2 = addDays store 1 := processDate_ok_store env store store _ _ h
  subst hst
  simp only [timeAfter, truncateToDay, addDays, Bool.or_eq_true, Bool.and_eq_true,
    decide_eq_true_eq, not_or, not_and, gt_iff_lt, not_lt] at *
  omega

/-! ### Login retry policy (`internal/auth/login.go`, `RetryLogin`) -/

/-- Model of the error built by `errors.New("failed to login after
multiple retries")`: a leaf error that carries no cause. -/
def loginExhaustedError : GoError := GoError.msg "failed to login after multiple retries"

/-- Model of the `for index := range retries` loop of `RetryLogin`,
counting down the remaining attempts.  `loginResult i` is the outcome of
the `i`-th `Login` call (`none` is success).  Returns the final result,
the number of `Login` invocations and the list of `time.Sleep` durations
(in seconds) performed. -/
def retryLoginGo (loginResult : Nat → Option GoError) (index : Nat) :
    Nat → Option GoError × Nat × List Nat
  | 0 => (some loginExhaustedError, 0, [])
  | remaining + 1 =>
    match loginResult index with
    | none => (none, 1, [])
    | some _ =>
      match retryLoginGo loginResult (index + 1) remaining with
      | (res, calls, sleeps) => (res, calls + 1, 5 :: sleeps)

/-- Model of `RetryLogin`: three attempts with a 5-second sleep after
every failed attempt; after exhaustion the fixed `loginExhaustedError` is
returned (the last underlying failure is only logged). -/
def RetryLogin (loginResult : Nat → Option GoError) : Option GoError × Nat × List Nat :=
  retryLoginGo loginResult 0 3

/-! ### Executor reconciliation (`internal/repository/task.go`,
`Repository.UpdateTaskExecutors`)

The `task_executors` table is a list of `(task_id, executor_id)` rows
with primary key `(task_id, executor_id)`; `employees` resolves the
`SELECT id FROM employees WHERE shortname = $2` subquery.  An unresolved
shortname or a primary-key conflict makes the `INSERT` fail, as the
database would. -/

/-- Model of the insert loop of `UpdateTaskExecutors`: links are appended
in order; an executor whose shortname does not resolve, or a duplicate
link, fails the corresponding `INSERT`. -/
def insertExecutors (employees : String → Option Int) (db : List (Int × Int)) (taskID : Int) :
    List String → Except GoError (List (Int × Int))
  | [] => Except.ok db
  | name :: rest =>
    match employees name with
    | none => Except.error (GoError.msg "failed to save link between task and employee")
    | some eid =>
      if (taskID, eid) ∈ db then
        Except.error (GoError.msg "failed to save link between task and employee")
      else insertExecutors employees (db ++ [(taskID, eid)]) taskID rest

/-- Model of `UpdateTaskExecutors`: first `DELETE FROM task_executors
WHERE task_id = $1` removes every link of the task, then the current
executor list is inserted. -/
def UpdateTaskExecutors (employees : String → Option Int) (db : List (Int × Int))
    (taskID : Int) (executors : List String) : Except GoError (List (Int × Int)) :=
  insertExecutors employees (db.filter (fun link => link.1 ≠ taskID)) taskID executors

/-! ### Cookie jar (`internal/client/cookie.go`)

`SetCookies` and `Cookies` run under the jar's single mutex, so their
observable behaviour is that of atomic operations on the underlying map;
the map is modelled as a total function from host to cookie list (a Go
map read of a missing key yields the empty slice). -/

/-- Model of `net/http.Cookie` (only identity matters to the jar). -/
structure Cookie where
  name : String
  value : String
deriving Repr, DecidableEq

/-- Model of `net/url.URL` as the jar sees it: only the host is ever
inspected. -/
structure GoURL where
  host : String
deriving Repr, DecidableEq

/-- Model of the jar's `map[string][]*http.Cookie`. -/
def CookieJar : Type := String → List Cookie

/-- Model of `CookieJar.SetCookies`: `c.jar[u.Host] = cookies` replaces
the whole entry for the host. -/
def SetCookies (jar : CookieJar) (u : GoURL) (cookies : List Cookie) : CookieJar :=
  fun h => if h = u.host then cookies else jar h

/-- Model of `CookieJar.Cookies`: `return c.jar[u.Host]`. -/
def Cookies (jar : CookieJar) (u : GoURL) : List Cookie :=
  jar u.host

/-! ### Employee synchronization service (`Staff.ProcessEmployee`)

The Hermes response carries the employee list and the new content
fingerprint; an empty list signals that the fingerprint matched the
`KnownHash` sent with the request.  `mail.ParseAddress` and the random
email generator are external, so they enter as oracles: `validEmail`
decides address validity and `genEmail k` is the `k`-th generated random
address. -/

/-- Model of `models.Employee`. -/
structure Employee where
  id : Int
  fullName : String
  shortName : String
  position : String
  email : String
  phone : String
deriving Repr, DecidableEq

/-- Model of the zero value of `models.Employee`. -/
def emptyEmployee : Employee := ⟨0, "", "", "", "", ""⟩

/-- Model of a protobuf employee message from Hermes. -/
structure PbEmployee where
  id : Int
  fullname : String
  shortname : String
  position : String
  email : String
  phone : String
deriving Repr, DecidableEq

/-- Model of the Hermes `GetEmployees` response. -/
structure GetEmployeesResponse where
  employees : List PbEmployee
  newHash : String
deriving Repr, DecidableEq

/-- Mutable service state: the last observed fingerprint
(`Staff.lastKnownHash`). -/
structure StaffState where
  lastKnownHash : String
deriving Repr, DecidableEq

/-- Model of `convertPbToModels`. -/
def convertPbToModels (pbEmployees : List PbEmployee) : List Employee :=
  pbEmployees.map (fun pbe => ⟨pbe.id, pbe.fullname, pbe.shortname, pbe.position, pbe.email, pbe.phone⟩)

/-- Model of `isValidPhoneNumber`: E.164-style check after removing
spaces and hyphens — an optional plus sign, one digit, then 1 to 14
further digits and nothing else, mirroring the anchored regular
expression of the source. -/
def isValidPhoneNumberR (phone : String) : Bool :=
  let p := replaceAllR (replaceAllR phone " " "") "-" ""
  match p.data with
  | '+' :: c :: rest => c.isDigit && 1 ≤ rest.length && rest.length ≤ 14 && rest.all Char.isDigit
  | c :: rest => c.isDigit && 1 ≤ rest.length && rest.length ≤ 14 && rest.all Char.isDigit
  | [] => false

/-- Oracle for the external pieces of the employee pipeline. -/
structure EmpEnv where
  validEmail : String → Bool
  genEmail : Nat → String

/-- Model of `ValidateEmployee`. -/
def ValidateEmployee (env : EmpEnv) (email phone : String) : Bool × Bool :=
  (env.validEmail email, isValidPhoneNumberR phone)

/-- Model of `fixInvalidEmail`, threading the index of the next random
email through the loop: an empty email is replaced by a generated one,
and an address the validator rejects is replaced again. -/
def fixInvalidEmail (env : EmpEnv) : List Employee → Nat → List Employee × Nat
  | [], k => ([], k)
  | e :: rest, k =>
    let step1 : Employee × Nat :=
      if e.email = "" then ({ e with email := env.genEmail k }, k + 1) else (e, k)
    let step2 : Employee × Nat :=
      if (ValidateEmployee env step1.1.email step1.1.phone).1 then step1
      else ({ step1.1 with email := env.genEmail step1.2 }, step1.2 + 1)
    match fixInvalidEmail env rest step2.2 with
    | (others, k3) => (step2.1 :: others, k3)

/-- Oracle for the employee repository: the `GetEmployeeByID` content and
the outcome of each write (`none` is success). -/
structure StaffRepoEnv where
  getEmployeeByID : Int → Option Employee
  updateResult : Employee → Option GoError
  saveResult : Employee → Option GoError

/-- Persistence call issued by the employee pipeline. -/
inductive EmpEvent where
  | update (e : Employee)
  | save (e : Employee)
deriving Repr, DecidableEq

/-- Model of `IsEmployeeExists`: a repository miss (or error) yields
`false` together with the zero-value employee. -/
def IsEmployeeExists (repo : StaffRepoEnv) (employeeID : Int) : Bool × Employee :=
  match repo.getEmployeeByID employeeID with
  | some e => (true, e)
  | none => (false, emptyEmployee)

/-- Model of the reconciliation loop of `ProcessEmployee`: skip when the
persisted record equals the extracted one, update on difference, save on
miss; the first failing write aborts with a wrapped error.  Returns the
result and the persistence calls issued. -/
def processEmployeeLoop (repo : StaffRepoEnv) : List Employee → Option GoError × List EmpEvent
  | [] => (none, [])
  | employee :: rest =>
    let lookup := IsEmployeeExists repo employee.id
    if lookup.1 then
      if lookup.2 = employee then processEmployeeLoop repo rest
      else
        match repo.updateResult employee with
        | some e => (some (GoError.wrap "failed to update employee" e), [EmpEvent.update employee])
        | none =>
          match processEmployeeLoop repo rest with
          | (res, evs) => (res, EmpEvent.update employee :: evs)
    else
      match repo.saveResult employee with
      | some e => (some (GoError.wrap "failed to save new employee" e), [EmpEvent.save employee])
      | none =>
        match processEmployeeLoop repo rest with
        | (res, evs) => (res, EmpEvent.save employee :: evs)

/-- Model of `Staff.ProcessEmployee`: on a transport error the state is
unchanged; on an empty employee list (fingerprint match) the new
fingerprint is recorded and the cycle succeeds without touching the
repository; otherwise records are converted, emails fixed and reconciled,
and the fingerprint is recorded only after a fully successful loop. -/
def ProcessEmployee (env : EmpEnv) (repo : StaffRepoEnv)
    (resp : Except GoError GetEmployeesResponse) (s : StaffState) :
    Option GoError × List EmpEvent × StaffState :=
  match resp with
  | Except.error e => (some (GoError.wrap "failed to get employees from Hermes" e), [], s)
  | Except.ok r =>
    if r.employees.length = 0 then
      (none, [], { s with lastKnownHash := r.newHash })
    else
      let employees := convertPbToModels r.employees
      let fixedEmployees := (fixInvalidEmail env employees 0).1
      match processEmployeeLoop repo fixedEmployees with
      | (some e, evs) => (some e, evs, s)
      | (none, evs) => (none, evs, { s with lastKnownHash := r.newHash })

/-! ## Claim theorems -/

/-- C1.  Fingerprint short-circuit: in every cycle whose fetch succeeds
and whose record list is empty (the change detector signalling that the
new fingerprint equals the last observed one), `ProcessEmployee` issues no
persistence call at all, records the new fingerprint in the service state
and returns success. -/
theorem ProcessEmployee_fingerprint_short_circuit
    (env : EmpEnv) (repo : StaffRepoEnv) (r : GetEmployeesResponse) (s : StaffState)
    (hEmpty : r.employees = []) :
    ProcessEmployee env repo (Except.ok r) s =
      (none, [], { lastKnownHash := r.newHash }) := by
  simp [ProcessEmployee, hEmpty]

/-- C1, witness: a concrete cycle with a matching fingerprint performs no
persistence call and stores the new fingerprint. -/
theorem ProcessEmployee_fingerprint_short_circuit_witness :
    ProcessEmployee ⟨fun _ => true, fun _ => "gen"⟩
      ⟨fun _ => none, fun _ => none, fun _ => none⟩
      (Except.ok ⟨[], "hash-two"⟩) ⟨"hash-one"⟩ = (none, [], ⟨"hash-two"⟩) :=
  ProcessEmployee_fingerprint_short_circuit _ _ _ _ rfl

/-- C4, counterexample: when every attempt fails, `RetryLogin` returns the
bare exhaustion error built by `errors.New`; the last underlying cause is
not recoverable from it (`errors.Is` fails), contradicting the claim that
the returned error wraps the final attempt's failure. -/
theorem RetryLogin_wrap_counterexample :
    RetryLogin (fun _ => some (GoError.msg "network down")) =
      (some loginExhaustedError, 3, [5, 5, 5]) ∧
    errorIs loginExhaustedError (GoError.msg "network down") = false := by
  decide

/-- C4 (amended).  `RetryLogin` invokes the login operation at most 3
times with a fixed 5-second delay after each failed attempt; if every
attempt fails it returns the fixed exhaustion error, which wraps no
underlying cause (its unwrap chain contains only itself). -/
theorem RetryLogin_exhaustion (loginResult : Nat → Option GoError) :
    (RetryLogin loginResult).2.1 ≤ 3 ∧
    (∀ s ∈ (RetryLogin loginResult).2.2, s = 5) ∧
    ((∀ i, i < 3 → (loginResult i).isSome) →
      RetryLogin loginResult = (some loginExhaustedError, 3, [5, 5, 5])) ∧
    (∀ e, errorIs loginExhaustedError e = true → e = loginExhaustedError) := by
  have hlast : ∀ e, errorIs loginExhaustedError e = true → e = loginExhaustedError := by
    intro e he
    simpa [errorIs, loginExhaustedError, eq_comm] using he
  rcases h0 : loginResult 0 with _ | e0
  · exact ⟨by simp [RetryLogin, retryLoginGo, h0], by simp [RetryLogin, retryLoginGo, h0],
      fun hall => absurd (hall 0 (by omega)) (by simp [h0]), hlast⟩
  · rcases h1 : loginResult 1 with _ | e1
    · exact ⟨by simp [RetryLogin, retryLoginGo, h0, h1], by simp [RetryLogin, retryLoginGo, h0, h1],
        fun hall => absurd (hall 1 (by omega)) (by simp [h1]), hlast⟩
    · rcases h2 : loginResult 2 with _ | e2
      · exact ⟨by simp [RetryLogin, retryLoginGo, h0, h1, h2],
          by simp [RetryLogin, retryLoginGo, h0, h1, h2],
          fun hall => absurd (hall 2 (by omega)) (by simp [h2]), hlast⟩
      · refine ⟨by simp [RetryLogin, retryLoginGo, h0, h1, h2],
          by simp [RetryLogin, retryLoginGo, h0, h1, h2], fun _ => ?_, hlast⟩
        simp [RetryLogin, retryLoginGo, h0, h1, h2]

/-- C4, witness: with every attempt failing, the wrapper makes exactly 3
calls, sleeps 5 seconds after each, and returns the exhaustion error. -/
theorem RetryLogin_exhaustion_witness :
    RetryLogin (fun _ => some (GoError.msg "boom")) =
      (some loginExhaustedError, 3, [5, 5, 5]) :=
  (RetryLogin_exhaustion (fun _ => some (GoError.msg "boom"))).2.2.1
    (fun i _ => rfl)

/-- C10.  Cookie-store round trip with last-write-wins: after
`SetCookies u cs`, reading any URL with the same host returns exactly
`cs`; the stored list is independent of whatever was previously stored
for that host (wholesale replacement, not a merge, also across two
successive writes), and other hosts are untouched. -/
theorem SetCookies_roundtrip (jar jar2 : CookieJar) (u v w : GoURL)
    (cs cs0 : List Cookie) (hsame : v.host = u.host) :
    Cookies (SetCookies jar u cs) v = cs ∧
    Cookies (SetCookies jar u cs) v = Cookies (SetCookies jar2 u cs) v ∧
    Cookies (SetCookies (SetCookies jar u cs0) u cs) v = cs ∧
    (w.host ≠ u.host → Cookies (SetCookies jar u cs) w = Cookies jar w) := by
  refine ⟨?_, ?_, ?_, ?_⟩
  · simp [Cookies, SetCookies, hsame]
  · simp [Cookies, SetCookies, hsame]
  · simp [Cookies, SetCookies, hsame]
  · intro hdiff
    simp [Cookies, SetCookies, hdiff]

/-- C10, witness: a concrete write followed by a read through a URL with
the same host returns the stored list. -/
theorem SetCookies_roundtrip_witness :
    Cookies (SetCookies (fun _ => []) ⟨"portal.example"⟩ [⟨"sid", "abc"⟩]) ⟨"portal.example"⟩ =
      [⟨"sid", "abc"⟩] :=
  (SetCookies_roundtrip (fun _ => []) (fun _ => []) ⟨"portal.example"⟩ ⟨"portal.example"⟩
    ⟨"other.example"⟩ [⟨"sid", "abc"⟩] [] rfl).1

/-- Helper for C6: when every shortname resolves (to `eids`, in order),
the resolved ids are distinct and none of them is already linked, the
insert loop succeeds and appends exactly the new links in order. -/
theorem insertExecutors_ok (employees : String → Option Int) (taskID : Int) :
    ∀ (executors : List String) (eids : List Int) (db : List (Int × Int)),
      executors.map employees = eids.map some → eids.Nodup →
      (∀ eid ∈ eids, (taskID, eid) ∉ db) →
      insertExecutors employees db taskID executors =
        Except.ok (db ++ eids.map (fun eid => (taskID, eid))) := by
  intro executors
  induction executors with
  | nil =>
    intro eids db hmap _ _
    have : eids = [] := by
      cases eids with
      | nil => rfl
      | cons e es => simp at hmap
    subst this
    simp [insertExecutors]
  | cons name rest ih =>
    intro eids db hmap hnodup hfresh
    cases eids with
    | nil => simp at hmap
    | cons eid eids2 =>
      simp only [List.map_cons, List.cons.injEq] at hmap
      have hname : employees name = some eid := hmap.1
      have hmem : (taskID, eid) ∉ db := hfresh eid (by simp)
      have hrec := ih eids2 (db ++ [(taskID, eid)]) hmap.2 hnodup.of_cons ?_
      · simp only [insertExecutors, hname, if_neg hmem]
        rw [hrec]
        simp
      · intro e he
        simp only [List.mem_append, List.mem_singleton, Prod.mk.injEq, not_or]
        refine ⟨hfresh e (by simp [he]), ?_⟩
        intro hpair
        exact (List.nodup_cons.mp hnodup).1 (hpair.2 ▸ he)

/-- C6.  Executor wholesale replacement: `UpdateTaskExecutors` first
unlinks every executor of the task, then links exactly the new list, so
the task's stored links afterwards are exactly the (resolved) new list —
independent of the prior state — and links of other tasks are untouched.
`eids` are the employee ids the shortnames resolve to, assumed distinct
(the primary key of `task_executors` rejects duplicates). -/
theorem UpdateTaskExecutors_replacement (employees : String → Option Int)
    (db : List (Int × Int)) (taskID : Int) (executors : List String) (eids : List Int)
    (hmap : executors.map employees = eids.map some) (hnodup : eids.Nodup) :
    UpdateTaskExecutors employees db taskID executors =
      Except.ok (db.filter (fun l => l.1 ≠ taskID) ++ eids.map (fun eid => (taskID, eid))) ∧
    (db.filter (fun l => l.1 ≠ taskID) ++ eids.map (fun eid => (taskID, eid))).filter
        (fun l => l.1 = taskID) = eids.map (fun eid => (taskID, eid)) ∧
    (db.filter (fun l => l.1 ≠ taskID) ++ eids.map (fun eid => (taskID, eid))).filter
        (fun l => l.1 ≠ taskID) = db.filter (fun l => l.1 ≠ taskID) := by
  refine ⟨?_, ?_, ?_⟩
  · unfold UpdateTaskExecutors
    exact insertExecutors_ok employees taskID executors eids _ hmap hnodup
      (by
        intro eid _ hmem
        simp only [List.mem_filter, decide_eq_true_eq] at hmem
        exact hmem.2 rfl)
  · rw [List.filter_append]
    have h1 : (db.filter (fun l => l.1 ≠ taskID)).filter (fun l => l.1 = taskID) = [] := by
      rw [List.filter_eq_nil_iff]
      intro a ha
      simp only [List.mem_filter, decide_eq_true_eq] at ha
      simp [ha.2]
    have h2 : (eids.map (fun eid => (taskID, eid))).filter (fun l => l.1 = taskID) =
        eids.map (fun eid => (taskID, eid)) := by
      rw [List.filter_eq_self]
      intro a ha
      simp only [List.mem_map] at ha
      obtain ⟨e, _, rfl⟩ := ha
      simp
    rw [h1, h2, List.nil_append]
  · rw [List.filter_append]
    have h1 : (db.filter (fun l => l.1 ≠ taskID)).filter (fun l => l.1 ≠ taskID) =
        db.filter (fun l => l.1 ≠ taskID) := by
      rw [List.filter_eq_self]
      intro a ha
      simp only [List.mem_filter] at ha
      exact ha.2
    have h2 : (eids.map (fun eid => (taskID, eid))).filter (fun l => l.1 ≠ taskID) = [] := by
      rw [List.filter_eq_nil_iff]
      intro a ha
      simp only [List.mem_map] at ha
      obtain ⟨e, _, rfl⟩ := ha
      simp
    rw [h1, h2, List.append_nil]

/-- Employee-shortname resolver used by the C6 witness: A, B and C are
employees 1, 2 and 3. -/
def demoEmployees : String → Option Int :=
  fun n => if n = "A" then some 1 else if n = "B" then some 2
           else if n = "C" then some 3 else none

/-- C6, witness: with executors A and B linked for task 7, re-scraping as
B and C leaves exactly the links for B and C — not the union. -/
theorem UpdateTaskExecutors_replacement_witness :
    UpdateTaskExecutors demoEmployees [(7, 1), (7, 2)] 7 ["B", "C"] =
      Except.ok [(7, 2), (7, 3)] := by
  have h := UpdateTaskExecutors_replacement demoEmployees [(7, 1), (7, 2)] 7 ["B", "C"] [2, 3]
    (by decide) (by decide)
  exact h.1.trans (by rfl)

/-- C7.  Customer-field parsing: (a) a cell with a hyperlink whose trimmed
text splits on a literal hyphen into exactly two parts yields the two
trimmed parts as (customerName, customerLogin); (b) a cell with no link
but non-empty trimmed text yields that text with the sentinel login
`n/a`; (c) an entirely empty cell yields two empty strings. -/
theorem ParseCustomerInfo_cases (cell : Cell) :
    (cell.linkTexts.length ≠ 0 →
      (splitR (trimR (String.join cell.linkTexts)) "-").length = 2 →
      ParseCustomerInfo cell =
        (trimR ((splitR (trimR (String.join cell.linkTexts)) "-").headD ""),
         trimR ((splitR (trimR (String.join cell.linkTexts)) "-").getD 1 ""))) ∧
    (cell.linkTexts.length = 0 → trimR cell.text ≠ "" →
      ParseCustomerInfo cell = (trimR cell.text, "n/a")) ∧
    (cell.linkTexts.length = 0 → trimR cell.text = "" →
      ParseCustomerInfo cell = ("", "")) := by
  refine ⟨?_, ?_, ?_⟩
  · intro hlink hparts
    simp only [ParseCustomerInfo]
    rw [if_pos hlink, if_pos hparts]
  · intro hlink hne
    simp only [ParseCustomerInfo]
    rw [if_neg (by simp [hlink])]
    simp only [customerTextFallback]
    rw [if_pos hne]
  · intro hlink heq
    simp only [ParseCustomerInfo]
    rw [if_neg (by simp [hlink])]
    simp only [customerTextFallback]
    rw [if_neg (by simp [heq])]

/-- C7, witness: link text `Acme Corp - acmeuser` yields
`(Acme Corp, acmeuser)`; a link-less `Acme Corp` cell yields
`(Acme Corp, n/a)`; an empty cell yields two empty strings. -/
theorem ParseCustomerInfo_cases_witness :
    ParseCustomerInfo ⟨["Acme Corp - acmeuser"], "Acme Corp - acmeuser"⟩ =
      ("Acme Corp", "acmeuser") ∧
    ParseCustomerInfo ⟨[], "Acme Corp"⟩ = ("Acme Corp", "n/a") ∧
    ParseCustomerInfo ⟨[], ""⟩ = ("", "") := by
  refine ⟨?_, ?_, ?_⟩
  · exact ((ParseCustomerInfo_cases ⟨["Acme Corp - acmeuser"], "Acme Corp - acmeuser"⟩).1
      (by decide) (by decide)).trans (by decide)
  · exact ((ParseCustomerInfo_cases ⟨[], "Acme Corp"⟩).2.1 rfl (by decide)).trans (by decide)
  · exact (ParseCustomerInfo_cases ⟨[], ""⟩).2.2 rfl (by decide)

/-- C9, counterexample: a cell holding a hyperlink with empty text (and no
other text) has a link whose text does not split into two parts, yet
`ParseCustomerInfo` returns two empty strings — not the sentinel login
`n/a` the claim promises for every such cell. -/
theorem ParseCustomerInfo_na_counterexample :
    ((⟨[""], ""⟩ : Cell).linkTexts.length ≠ 0) ∧
    ((splitR (trimR (String.join ([""] : List String))) "-").length ≠ 2) ∧
    ParseCustomerInfo ⟨[""], ""⟩ = ("", "") ∧
    (("", "") : String × String) ≠ ("", "n/a") := by
  decide

/-- C9 (amended).  For every customer cell containing a hyperlink whose
text does not split on the hyphen into exactly two parts, parsing falls
through to the text branch: the whole trimmed cell text becomes
customerName with customerLogin `n/a` when that text is non-empty, and
both results are empty when the whole cell text trims to empty. -/
theorem ParseCustomerInfo_na_fallthrough (cell : Cell)
    (hlink : cell.linkTexts.length ≠ 0)
    (hparts : (splitR (trimR (String.join cell.linkTexts)) "-").length ≠ 2) :
    (trimR cell.text ≠ "" → ParseCustomerInfo cell = (trimR cell.text, "n/a")) ∧
    (trimR cell.text = "" → ParseCustomerInfo cell = ("", "")) := by
  constructor
  · intro hne
    simp only [ParseCustomerInfo]
    rw [if_pos hlink, if_neg hparts]
    simp only [customerTextFallback]
    rw [if_pos hne]
  · intro heq
    simp only [ParseCustomerInfo]
    rw [if_pos hlink, if_neg hparts]
    simp only [customerTextFallback]
    rw [if_neg (by simp [heq])]

/-- C9, witness: a link whose text contains two hyphens (three parts)
falls through and yields the whole trimmed cell text with the `n/a`
sentinel. -/
theorem ParseCustomerInfo_na_fallthrough_witness :
    ParseCustomerInfo ⟨["Acme-Corp-x"], "Acme-Corp-x"⟩ = ("Acme-Corp-x", "n/a") :=
  (ParseCustomerInfo_na_fallthrough ⟨["Acme-Corp-x"], "Acme-Corp-x"⟩
    (by decide) (by decide)).1 (by decide)

/-- Helper for C5: the extraction fold appends, row by row, the task of
every row whose identifier parses and the errors every row records. -/
theorem parse_foldl_general (b : Bool) :
    ∀ (rows : List RawRow) (acc : List Task × List RowError),
      rows.foldl
        (fun acc row =>
          match processRow b row with
          | (some t, errs) => (acc.1 ++ [t], acc.2 ++ errs)
          | (none, errs) => (acc.1, acc.2 ++ errs)) acc =
      (acc.1 ++ rows.filterMap (fun r => (processRow b r).1),
       acc.2 ++ rows.flatMap (fun r => (processRow b r).2)) := by
  intro rows
  induction rows with
  | nil => intro acc; simp
  | cons r rest ih =>
    intro acc
    rw [List.foldl_cons]
    rcases hr : processRow b r with ⟨topt, errs⟩
    rcases topt with _ | t
    · simp only [hr]
      rw [ih]
      simp [List.filterMap_cons, List.flatMap_cons, hr]
    · simp only [hr]
      rw [ih]
      simp [List.filterMap_cons, List.flatMap_cons, hr]

/-- C5.  Row-level resilience: the page extraction returns, in document
order, exactly the tasks of the rows whose identifier parses, together
with all recorded row errors and a nil Go-level error; a row whose
identifier cell does not parse as an integer contributes no task and
exactly one row error, while a row whose identifier parses always
contributes a task. -/
theorem parseTasksFromBody_row_resilience (b : Bool) (rows : List RawRow) :
    parseTasksFromBody b rows =
      ((rows.filterMap (fun r => (processRow b r).1),
        rows.flatMap (fun r => (processRow b r).2)), none) ∧
    (∀ r, extractIntR r.idText = none → processRow b r = (none, [RowError.idError])) ∧
    (∀ r tid, extractIntR r.idText = some tid → ∃ t, (processRow b r).1 = some t) := by
  refine ⟨?_, ?_, ?_⟩
  · unfold parseTasksFromBody
    rw [parse_foldl_general]
    simp
  · intro r hid
    simp [processRow, hid]
  · intro r tid hid
    simp [processRow, hid]

/-- Well-formed demonstration row used by the extraction witnesses: the
identifier text is the argument, every other cell parses. -/
def demoRow (idText : String) : RawRow :=
  ⟨idText, "15.01.2024", "16.01.2024", "Street 1", "Repair", "desc", true,
   ⟨["Acme - user"], "Acme - user"⟩, "Alice<br/>Bob", "note"⟩

/-- C5, witness: a page of 3 well-formed rows and 1 row with an
unparseable identifier yields exactly 3 tasks, 1 recorded row error and a
nil error. -/
theorem parseTasksFromBody_row_resilience_witness :
    (parseTasksFromBody true [demoRow "101", demoRow "102", demoRow "103", demoRow "abc"]).1.1.length = 3 ∧
    (parseTasksFromBody true [demoRow "101", demoRow "102", demoRow "103", demoRow "abc"]).1.2 =
      [RowError.idError] ∧
    (parseTasksFromBody true [demoRow "101", demoRow "102", demoRow "103", demoRow "abc"]).2 = none ∧
    processRow true (demoRow "abc") = (none, [RowError.idError]) := by
  have h := parseTasksFromBody_row_resilience true
    [demoRow "101", demoRow "102", demoRow "103", demoRow "abc"]
  refine ⟨?_, ?_, ?_, h.2.1 (demoRow "abc") (by decide)⟩
  · rw [h.1]; decide
  · rw [h.1]; decide
  · rw [h.1]

/-- C8.  Only identifier failures exclude a row: the extracted task is
`none` exactly when the identifier cell fails to parse; when the
identifier parses but the created-at cell (or, for the closed-task
layout, the closed-at cell) fails strict `02.01.2006` parsing, a row
error is recorded and the task is still produced, carrying the zero time
in the unparsed field. -/
theorem processRow_only_id_failures_exclude (b : Bool) (r : RawRow) :
    ((processRow b r).1 = none ↔ extractIntR r.idText = none) ∧
    (∀ tid, extractIntR r.idText = some tid →
      (extractDateR r.createdText = none →
        ∃ t, (processRow b r).1 = some t ∧ t.createdAt = zeroTime ∧
          RowError.createdAtError tid ∈ (processRow b r).2) ∧
      (b = true → extractDateR r.closedText = none →
        ∃ t, (processRow b r).1 = some t ∧ t.closedAt = zeroTime ∧
          RowError.closedAtError tid ∈ (processRow b r).2)) := by
  constructor
  · rcases hid : extractIntR r.idText with _ | tid
    · simp [processRow, hid]
    · simp [processRow, hid]
  · intro tid hid
    constructor
    · intro hcreated
      rcases hb : b with _ | _
      · rcases hclosed : extractDateR r.closedText with _ | d <;>
          simp [processRow, hid, hcreated, hclosed]
      · rcases hclosed : extractDateR r.closedText with _ | d <;>
          simp [processRow, hid, hcreated, hclosed]
    · intro hb hclosed
      subst hb
      rcases hcreated : extractDateR r.createdText with _ | d <;>
        simp [processRow, hid, hcreated, hclosed]

/-- C8, witness: a row whose identifier parses but whose created-at cell
is malformed is still extracted, with the zero time and a recorded error;
a row with an unparseable identifier is the one excluded. -/
theorem processRow_only_id_failures_exclude_witness :
    (∃ t, (processRow true ⟨"77", "bad date", "16.01.2024", "a", "t", "d", true,
        ⟨[], "c"⟩, "", ""⟩).1 = some t ∧ t.createdAt = zeroTime ∧
      RowError.createdAtError 77 ∈ (processRow true ⟨"77", "bad date", "16.01.2024", "a", "t",
        "d", true, ⟨[], "c"⟩, "", ""⟩).2) ∧
    (processRow true (demoRow "abc")).1 = none := by
  constructor
  · exact ((processRow_only_id_failures_exclude true
      ⟨"77", "bad date", "16.01.2024", "a", "t", "d", true, ⟨[], "c"⟩, "", ""⟩).2 77
      (by decide)).1 (by decide)
  · exact (processRow_only_id_failures_exclude true (demoRow "abc")).1.mpr (by decide)

/-- The save loop issues only `saveTask` calls, never a cursor write. -/
theorem runSaveTasks_no_saveDate (env : SyncEnv) (nd : GoTime) :
    ∀ (tasks : List Task) (x : GoTime),
      Event.saveDate x ∉ (runSaveTasks env nd tasks).2 := by
  intro tasks
  induction tasks with
  | nil => intro x; simp [runSaveTasks]
  | cons t ts ih =>
    intro x
    rcases hs : env.saveTaskResult nd t with _ | e
    · rcases hrec : runSaveTasks env nd ts with ⟨res, evs⟩
      simp only [runSaveTasks, hs, hrec, List.mem_cons, not_or]
      refine ⟨by simp, ?_⟩
      have := ih x
      rw [hrec] at this
      exact this
    · simp [runSaveTasks, hs]

/-- When every save succeeds, the loop issues exactly one `saveTask` call
per task, in order. -/
theorem runSaveTasks_ok_events (env : SyncEnv) (nd : GoTime) :
    ∀ tasks : List Task, (runSaveTasks env nd tasks).1 = none →
      (runSaveTasks env nd tasks).2 = tasks.map Event.saveTask := by
  intro tasks
  induction tasks with
  | nil => intro _; simp [runSaveTasks]
  | cons t ts ih =>
    intro hok
    rcases hs : env.saveTaskResult nd t with _ | e
    · rcases hrec : runSaveTasks env nd ts with ⟨res, evs⟩
      simp only [runSaveTasks, hs, hrec] at hok ⊢
      have := ih
      rw [hrec] at this
      simp only [List.map_cons, List.cons.injEq, true_and]
      exact this hok
    · simp [runSaveTasks, hs] at hok

/-- A failing save loop returns an error wrapping the cause of some
failing `SaveTaskData` call. -/
theorem runSaveTasks_err (env : SyncEnv) (nd : GoTime) :
    ∀ (tasks : List Task) (e : GoError), (runSaveTasks env nd tasks).1 = some e →
      ∃ t c, t ∈ tasks ∧ env.saveTaskResult nd t = some c ∧
        e = GoError.wrap "failed to save task in repository" c := by
  intro tasks
  induction tasks with
  | nil => intro e he; simp [runSaveTasks] at he
  | cons t ts ih =>
    intro e he
    rcases hs : env.saveTaskResult nd t with _ | c
    · rcases hrec : runSaveTasks env nd ts with ⟨res, evs⟩
      simp only [runSaveTasks, hs, hrec] at he
      have := ih e
      rw [hrec] at this
      obtain ⟨t2, c2, hmem, hsv, rfl⟩ := this he
      exact ⟨t2, c2, by simp [hmem], hsv, rfl⟩
    · simp only [runSaveTasks, hs, Option.some.injEq] at he
      exact ⟨t, c, by simp, hs, he.symm⟩

/-- C3.  Cursor atomicity: a scrape error aborts the cycle with a wrapped
error, no persistence call and an unchanged cursor; a failing
`SaveTaskData` aborts it with that error, a trace containing no cursor
write and an unchanged cursor; a cursor write appears in the trace only
for `date + 1 day`, only after the scrape succeeded and every per-task
save succeeded, and only as the final call; every failing cycle leaves
the stored cursor unchanged, and a successful cycle stores exactly
`date + 1 day`. -/
theorem processDate_cursor_atomicity (env : SyncEnv) (store d : GoTime) :
    (∀ e, env.parseResult (truncateToDay d) = Except.error e →
      processDate env store d =
        (some (GoError.wrap "failed to parse tasks for date" e), [], store) ∧
      errorIs (GoError.wrap "failed to parse tasks for date" e) e = true) ∧
    (∀ tasks e, env.parseResult (truncateToDay d) = Except.ok tasks →
      (runSaveTasks env (truncateToDay d) tasks).1 = some e →
      processDate env store d = (some e, (runSaveTasks env (truncateToDay d) tasks).2, store) ∧
      (∀ x, Event.saveDate x ∉ (runSaveTasks env (truncateToDay d) tasks).2) ∧
      (∃ t c, t ∈ tasks ∧ env.saveTaskResult (truncateToDay d) t = some c ∧
        e = GoError.wrap "failed to save task in repository" c)) ∧
    (∀ res evs st x, processDate env store d = (res, evs, st) →
      Event.saveDate x ∈ evs →
      x = addDays d 1 ∧
      ∃ tasks, env.parseResult (truncateToDay d) = Except.ok tasks ∧
        (runSaveTasks env (truncateToDay d) tasks).1 = none ∧
        evs = tasks.map Event.saveTask ++ [Event.saveDate (addDays d 1)]) ∧
    (∀ e evs st, processDate env store d = (some e, evs, st) → st = store) ∧
    (∀ evs st, processDate env store d = (none, evs, st) → st = addDays d 1) := by
  refine ⟨?_, ?_, ?_, ?_, ?_⟩
  · intro e hp
    constructor
    · simp [processDate, hp]
    · have hself : ∀ e2 : GoError, errorIs e2 e2 = true := by
        intro e2
        cases e2 <;> simp [errorIs]
      simp [errorIs, hself]
  · intro tasks e hp hfail
    rcases hs : runSaveTasks env (truncateToDay d) tasks with ⟨sres, sevs⟩
    rw [hs] at hfail
    simp only at hfail
    subst hfail
    refine ⟨by simp [processDate, hp, hs], ?_, ?_⟩
    · intro x
      have := runSaveTasks_no_saveDate env (truncateToDay d) tasks x
      rw [hs] at this
      exact this
    · have := runSaveTasks_err env (truncateToDay d) tasks e
      rw [hs] at this
      exact this rfl
  · intro res evs st x hpd hmem
    rcases hp : env.parseResult (truncateToDay d) with e | tasks
    · have heq : processDate env store d =
          (some (GoError.wrap "failed to parse tasks for date" e), [], store) := by
        simp [processDate, hp]
      rw [heq] at hpd
      have hevs : evs = [] := by
        have h2 := congrArg (fun p => p.2.1) hpd
        simpa using h2.symm
      rw [hevs] at hmem
      simp at hmem
    · rcases hs : runSaveTasks env (truncateToDay d) tasks with ⟨sres, sevs⟩
      rcases sres with _ | e2
      · have hevents : sevs = tasks.map Event.saveTask := by
          have h2 := runSaveTasks_ok_events env (truncateToDay d) tasks
          rw [hs] at h2
          simpa using h2 rfl
        have htail : ∀ st2 res2,
            (res2, sevs ++ [Event.saveDate (addDays d 1)], st2) = (res, evs, st) →
            x = addDays d 1 ∧
            ∃ tasks2, (Except.ok tasks : Except GoError (List Task)) = Except.ok tasks2 ∧
              (runSaveTasks env (truncateToDay d) tasks2).1 = none ∧
              evs = tasks2.map Event.saveTask ++ [Event.saveDate (addDays d 1)] := by
          intro st2 res2 hpd2
          have hevs : evs = sevs ++ [Event.saveDate (addDays d 1)] := by
            have h2 := congrArg (fun p => p.2.1) hpd2
            simpa using h2.symm
          subst hevs
          have hx : x = addDays d 1 := by
            rcases List.mem_append.mp hmem with hin | hin
            · exfalso
              have h3 := runSaveTasks_no_saveDate env (truncateToDay d) tasks x
              rw [hs] at h3
              exact h3 hin
            · simpa using hin
          exact ⟨hx, tasks, rfl, by rw [hs], by rw [hevents]⟩
        rcases hd : env.saveDateResult (addDays d 1) with _ | e3
        · have heq : processDate env store d =
              (none, sevs ++ [Event.saveDate (addDays d 1)], addDays d 1) := by
            simp [processDate, hp, hs, hd]
          rw [heq] at hpd
          exact htail _ _ hpd
        · have heq : processDate env store d =
              (some (GoError.wrap "failed to save next processed date" e3),
               sevs ++ [Event.saveDate (addDays d 1)], store) := by
            simp [processDate, hp, hs, hd]
          rw [heq] at hpd
          exact htail _ _ hpd
      · have heq : processDate env store d = (some e2, sevs, store) := by
          simp [processDate, hp, hs]
        rw [heq] at hpd
        have hevs : evs = sevs := by
          have h2 := congrArg (fun p => p.2.1) hpd
          simpa using h2.symm
        exfalso
        have h3 := runSaveTasks_no_saveDate env (truncateToDay d) tasks x
        rw [hs] at h3
        exact h3 (hevs ▸ hmem)
  · exact fun e evs st h => processDate_err_store env store d e evs st h
  · exact fun evs st h => processDate_ok_store env store d evs st h

/-- Concrete task used by the engine witnesses. -/
def demoTask : Task :=
  ⟨1, "Repair", zeroTime, zeroTime, "", "Street 1", "Acme", "user", [], []⟩

/-- C3, witness: a cycle whose single `SaveTaskData` call fails returns
that wrapped error, issues no cursor write, and leaves the stored cursor
unchanged. -/
theorem processDate_cursor_atomicity_witness :
    processDate
      ⟨fun _ => Except.ok [demoTask], fun _ _ => some (GoError.msg "db down"), fun _ => none⟩
      ⟨10, 0⟩ ⟨10, 0⟩ =
      (some (GoError.wrap "failed to save task in repository" (GoError.msg "db down")),
       [Event.saveTask demoTask], ⟨10, 0⟩) := by
  have h := (processDate_cursor_atomicity
    ⟨fun _ => Except.ok [demoTask], fun _ _ => some (GoError.msg "db down"), fun _ => none⟩
    ⟨10, 0⟩ ⟨10, 0⟩).2.1 [demoTask]
    (GoError.wrap "failed to save task in repository" (GoError.msg "db down")) rfl rfl
  exact h.1.trans (by rfl)

/-- Helper for C2: when every cycle succeeds, the catch-up loop starting
at a cursor not past today processes the cursor day and every following
day through today, in order and with the cursor's time of day preserved,
and ends with the stored cursor one day past today. -/
theorem catchUpToNow_run (env : SyncEnv) (today : GoTime)
    (hcycle : ∀ st : GoTime, (processDate env st st).1 = none) :
    ∀ (n : Nat) (store : GoTime), store.day ≤ today.day → today.day - store.day = n →
      catchUpToNow env today store =
        (none,
         (List.range' store.day (n + 1)).map (fun v => (⟨v, store.sec⟩ : GoTime)),
         (⟨store.day + n + 1, store.sec⟩ : GoTime)) := by
  intro n
  induction n with
  | zero =>
    intro store hle hn
    have hguard : ¬(timeAfter (truncateToDay store) (truncateToDay today) = true) := by
      simp only [timeAfter, truncateToDay, Bool.or_eq_true, Bool.and_eq_true,
        decide_eq_true_eq, gt_iff_lt, not_or, not_and, not_lt]
      omega
    rw [catchUpToNow, if_neg hguard]
    rcases hpd : processDate env store store with ⟨res, evs, store2⟩
    have hres : res = none := by
      have h2 := hcycle store
      rw [hpd] at h2
      exact h2
    subst hres
    have hst2 : store2 = addDays store 1 := processDate_ok_store env store store evs store2 hpd
    subst hst2
    have hguard2 : timeAfter (truncateToDay (addDays store 1)) (truncateToDay today) = true := by
      simp only [timeAfter, truncateToDay, addDays, Bool.or_eq_true, Bool.and_eq_true,
        decide_eq_true_eq, gt_iff_lt]
      omega
    have hrec : catchUpToNow env today (addDays store 1) = (none, [], addDays store 1) := by
      rw [catchUpToNow, if_pos hguard2]
    simp only [hpd, hrec]
    rfl
  | succ k ih =>
    intro store hle hn
    have hguard : ¬(timeAfter (truncateToDay store) (truncateToDay today) = true) := by
      simp only [timeAfter, truncateToDay, Bool.or_eq_true, Bool.and_eq_true,
        decide_eq_true_eq, gt_iff_lt, not_or, not_and, not_lt]
      omega
    rw [catchUpToNow, if_neg hguard]
    rcases hpd : processDate env store store with ⟨res, evs, store2⟩
    have hres : res = none := by
      have h2 := hcycle store
      rw [hpd] at h2
      exact h2
    subst hres
    have hst2 : store2 = addDays store 1 := processDate_ok_store env store store evs store2 hpd
    subst hst2
    have hrec := ih (addDays store 1) (by simp only [addDays]; omega)
      (by simp only [addDays]; omega)
    simp only [hpd, hrec]
    dsimp only [addDays]
    have harith : store.day + 1 + k + 1 = store.day + (k + 1) + 1 := by omega
    rw [harith]
    exact rfl

/-- C2.  Catch-up termination: for a persisted cursor whose UTC day D is
not after today's UTC day T (time of day ignored on both sides), and with
every cycle succeeding, the catch-up loop performs exactly one
reconciliation cycle per calendar day from D through T inclusive — the
processed days are exactly D, D+1, …, T in order, T − D + 1 cycles in
total — advances the cursor to day + 1 after each cycle, and terminates
with the stored cursor one day past today. -/
theorem catchUpToNow_termination (env : SyncEnv) (today store : GoTime)
    (hcycle : ∀ st : GoTime, (processDate env st st).1 = none)
    (hle : store.day ≤ today.day) :
    (catchUpToNow env today store).1 = none ∧
    ((catchUpToNow env today store).2.1).map GoTime.day =
      List.range' store.day (today.day - store.day + 1) ∧
    ((catchUpToNow env today store).2.1).length = today.day - store.day + 1 ∧
    (catchUpToNow env today store).2.2 = addDays store (today.day - store.day + 1) := by
  have h := catchUpToNow_run env today hcycle (today.day - store.day) store hle rfl
  rw [h]
  refine ⟨rfl, ?_, ?_, ?_⟩
  · rw [List.map_map]
    have hcomp : (GoTime.day ∘ fun v => (⟨v, store.sec⟩ : GoTime)) = id := rfl
    rw [hcomp, List.map_id]
  · simp
  · exact rfl

/-- C2, witness: a cursor of 2024-01-01 with today 2024-01-03 yields
exactly 3 catch-up cycles and a clean termination. -/
theorem catchUpToNow_termination_witness :
    ((catchUpToNow ⟨fun _ => Except.ok [], fun _ _ => none, fun _ => none⟩
        ⟨daysFromCivil 2024 1 3, 0⟩ ⟨daysFromCivil 2024 1 1, 0⟩).2.1).length = 3 ∧
    (catchUpToNow ⟨fun _ => Except.ok [], fun _ _ => none, fun _ => none⟩
        ⟨daysFromCivil 2024 1 3, 0⟩ ⟨daysFromCivil 2024 1 1, 0⟩).1 = none := by
  have h := catchUpToNow_termination ⟨fun _ => Except.ok [], fun _ _ => none, fun _ => none⟩
    ⟨daysFromCivil 2024 1 3, 0⟩ ⟨daysFromCivil 2024 1 1, 0⟩ (fun st => rfl) (by decide)
  refine ⟨?_, h.1⟩
  rw [h.2.2.1]
  decide

end Hephaestus
